import Mathlib

/-!
Shallow embedding of `src/video_downloader.py` (class `VideoDownloader`).

Modelling conventions:
* Python strings that undergo character-level manipulation (file names,
  paths, progress-log lines) are modelled as `List Char`; strings whose
  characters are never inspected (the proxy URL, the IP and port returned
  by the proxy service) are Lean `String`.
* External effects are supplied by an `Env` of oracles: the CSV file
  contents, the progress-log file contents, the sequence of responses from
  the IP-issuing HTTP endpoint, a clock for the behaviour-relevant
  `time.time()` reads, and per-item outcomes of the external `yutto`
  download command, the `os.walk` of the merge directory, and the `ffmpeg`
  cover-extraction command.
* `sys.exit(1)` is modelled by the `exited` constructors and by
  `RunResult.exitCode = 1`; normal loop completion yields `exitCode = 0`.
* `time.time()` reads that cannot influence control flow (tqdm display,
  the elapsed-time print at the manual checkpoint, the timing log lines in
  `extract_cover_image`) are not modelled; only the reads in `get_ip`
  (line 66) and `check_ip_validity` (line 71) are, each consuming one
  index of `Env.clock`.
* The manual checkpoint `input()` at lines 107-110 and the tqdm progress
  bar are modelled as effect-free (they do not change ledgers or control
  flow when they do not raise).
-/

namespace VD

/-- Models Python `str.isspace` characters removed by `str.strip()`:
space, tab, newline, carriage return, vertical tab, form feed. -/
def isSpaceChar (c : Char) : Bool :=
  c = ' ' || c = '\t' || c = '\n' || c = '\r' || c = '\x0b' || c = '\x0c'

/-- Models Python `line.strip()` on a line represented as `List Char`. -/
def trimL (l : List Char) : List Char :=
  ((l.dropWhile isSpaceChar).reverse.dropWhile isSpaceChar).reverse

/-- Numeric value of a decimal digit character. -/
def digitVal (c : Char) : Nat := c.toNat - 48

/-- Parses a nonempty all-digit character list as a natural number
(the digit part of Python `int(...)`). -/
def parseDigits (l : List Char) : Option Nat :=
  if l ≠ [] ∧ l.all Char.isDigit then
    some (l.foldl (fun acc c => acc * 10 + digitVal c) 0)
  else none

/-- Models Python `int(s)` on an already-stripped string: an optional
sign followed by at least one decimal digit; anything else raises
`ValueError`, modelled as `none`. -/
def parsePyInt (l : List Char) : Option Int :=
  match l with
  | [] => none
  | c :: rest =>
    if c = '-' then (parseDigits rest).map (fun n => -(n : Int))
    else if c = '+' then (parseDigits rest).map (fun n => (n : Int))
    else (parseDigits (c :: rest)).map (fun n => (n : Int))

/-- One line of the error ledger `error_log.txt`: `log_error` (lines
27-30) is called either with an avid (an integer work-item ID) or with a
file basename (line 163). -/
inductive LedgerEntry where
  | avidE (a : Int)
  | fileE (f : List Char)
deriving DecidableEq

/-- Models the set comprehension of `load_progress` (line 39):
`set(int(line.strip()) for line in f if line.strip())`, evaluated
line-by-line; the first unparseable non-blank line raises `ValueError`
(`Except.error`).  The Python `set` is materialized as a `List Int` whose
membership is the set membership (duplicates are irrelevant: the set is
only ever consulted for membership). -/
def loadLines : List (List Char) → List Int → Except Unit (List Int)
  | [], acc => .ok acc
  | ln :: rest, acc =>
    if trimL ln = [] then loadLines rest acc
    else
      match parsePyInt (trimL ln) with
      | none => .error ()
      | some n => loadLines rest (n :: acc)

/-- Models `VideoDownloader.load_progress` (lines 36-40): returns the
empty set when `progress_log.txt` does not exist (`none`), otherwise
parses one integer per non-blank line. -/
def load_progress (file : Option (List (List Char))) : Except Unit (List Int) :=
  match file with
  | none => .ok []
  | some lines => loadLines lines []

/-- Models pandas `Series.unique()` (line 79): keep the first occurrence
of each value, preserving first-seen order; `seen` is the set of values
already emitted. -/
def dedupFirstAux (seen : List Int) : List Int → List Int
  | [] => []
  | a :: rest =>
    if a ∈ seen then dedupFirstAux seen rest
    else a :: dedupFirstAux (a :: seen) rest

/-- First-seen-order deduplication of the avid column (line 79). -/
def dedupFirst (l : List Int) : List Int := dedupFirstAux [] l

/-- Outcome of one HTTP request to the IP-issuing endpoint as observed by
`get_ip` (lines 45-56): `requests.get` may raise (transport error),
`json.loads` may raise (JSON-decode error), the decoded body may carry
`ret != 200` (bad status), or the body is well-formed with `ret == 200`
and `data[0]` holding an ip and a port. -/
inductive IpOutcome where
  | transportErr
  | jsonErr
  | badStatus
  | ok (ip port : String)
deriving DecidableEq

/-- True on the three outcomes the code treats as a failed attempt (all
three lead to `time.sleep(5)` and the next loop iteration). -/
def isFailOutcome : IpOutcome → Bool
  | .ok _ _ => false
  | _ => true

/-- Outcome of the external `yutto` download command as observed by
`generate_and_run_commands` (lines 130-142): an exit code, a
`subprocess.TimeoutExpired`, or any other invocation exception. -/
inductive DownloadOutcome where
  | exitCode (c : Int)
  | timedOut
  | invokeErr
deriving DecidableEq

/-- A download attempt failed: non-zero exit, timeout, or invocation
error (the three branches of lines 134-142). -/
def downloadFails : DownloadOutcome → Bool
  | .exitCode c => c != 0
  | .timedOut => true
  | .invokeErr => true

/-- Outcome of the external `ffmpeg` cover-extraction command as observed
by `extract_cover_image` (lines 152-163): since `subprocess.run` is
called with `check=True`, a non-zero exit raises `CalledProcessError`
(which is caught at line 161); a timeout raises
`subprocess.TimeoutExpired` and a missing tool raises `OSError`, neither
of which is caught there and both propagate to the caller. -/
inductive CoverOutcome where
  | ok
  | calledErr
  | timedOut
  | invokeErr
deriving DecidableEq

/-- The outcomes on which `extract_cover_image` raises to its caller. -/
def coverRaises : CoverOutcome → Bool
  | .timedOut => true
  | .invokeErr => true
  | _ => false

/-- One invocation of the ffmpeg cover-extraction command: the input
video path and the output image path computed at line 146. -/
structure CoverCall where
  input : List Char
  output : List Char
deriving DecidableEq

/-- The mutable state of a `VideoDownloader` run: `k` counts HTTP
requests issued to the IP endpoint (indexing `Env.ipResponses`), `clk`
counts the modelled `time.time()` reads (indexing `Env.clock`), `proxy`
and `fetchTime` are the instance fields `self.proxy` and
`self.proxy_fetch_time`, and `progress`, `errors`, `covers` are the lines
appended to `progress_log.txt`, the lines appended to `error_log.txt`,
and the trace of ffmpeg invocations. -/
structure RunState where
  k : Nat
  clk : Nat
  proxy : Option String
  fetchTime : Int
  progress : List Int
  errors : List LedgerEntry
  covers : List CoverCall

/-- The external world of one run. -/
structure Env where
  csv : Option (List Int)
  progressFile : Option (List (List Char))
  ipResponses : Nat → IpOutcome
  clock : Nat → Int
  dirsRaise : Int → Bool
  download : Int → DownloadOutcome
  walk : Int → List (List Char × List (List Char))
  cover : List Char → CoverOutcome

/-- Result of the retry loop of `get_ip` (lines 44-56). -/
structure IpLoopOut where
  res : Option (String × String)
  attempts : Nat
  sleeps : List Nat
  nextK : Nat
deriving DecidableEq

/-- The `for attempt in range(max_retries)` loop of `get_ip` (lines
44-56), with `max_retries` passed as fuel: each iteration issues one HTTP
request; on `ret == 200` it breaks out, otherwise (bad status, JSON
error, transport error) it sleeps 5 seconds and continues.  `res = none`
means the loop fell through to the `else:` clause (line 57). -/
def getIpLoop (resp : Nat → IpOutcome) (k : Nat) : Nat → IpLoopOut
  | 0 => ⟨none, 0, [], k⟩
  | n + 1 =>
    match resp k with
    | .ok ip port => ⟨some (ip, port), 1, [], k + 1⟩
    | _ =>
      let r := getIpLoop resp (k + 1) n
      ⟨r.res, r.attempts + 1, 5 :: r.sleeps, r.nextK⟩

/-- The proxy URL built at lines 61-64:
`"http://%(ip)s:%(port)s" % \x7b"ip": ..., "port": ...\x7d`. -/
def mkProxy (ip port : String) : String := "http://" ++ ip ++ ":" ++ port

/-- Result of `get_ip`: either the updated state (proxy set, fetch time
recorded) or process termination via `sys.exit(1)` (line 59). -/
inductive GetIpResult where
  | ok (st : RunState)
  | exited (st : RunState)

/-- Models `VideoDownloader.get_ip` (lines 42-68): runs the retry loop
with `max_retries = 5`; on fall-through exits the process with code 1; on
success stores the proxy URL in `self.proxy` and the current time in
`self.proxy_fetch_time` (line 66 is the one behaviour-relevant
`time.time()` read). -/
def get_ip (env : Env) (st : RunState) : GetIpResult :=
  let r := getIpLoop env.ipResponses st.k 5
  match r.res with
  | none => .exited { st with k := r.nextK }
  | some (ip, port) =>
    .ok { st with
            k := r.nextK
            clk := st.clk + 1
            proxy := some (mkProxy ip port)
            fetchTime := env.clock st.clk }

/-- Result of `check_ip_validity`: the updated state together with
whether `get_ip` was invoked, or process termination raised from inside
`get_ip`. -/
inductive CheckResult where
  | ok (st : RunState) (called : Bool)
  | exited (st : RunState)

/-- True when the check invoked `get_ip` (the `exited` case can only
arise from inside an invocation of `get_ip`). -/
def checkCalled : CheckResult → Bool
  | .ok _ c => c
  | .exited _ => true

/-- Models `VideoDownloader.check_ip_validity` (lines 70-73):
`if self.proxy is None or (time.time() - self.proxy_fetch_time) > 300:
self.proxy = self.get_ip(self.ip_url)`.  The `or` short-circuits, so the
clock is read only when the proxy is set. -/
def check_ip_validity (env : Env) (st : RunState) : CheckResult :=
  match st.proxy with
  | none =>
    match get_ip env st with
    | .ok st2 => .ok st2 true
    | .exited st2 => .exited st2
  | some _ =>
    let now := env.clock st.clk
    let st1 := { st with clk := st.clk + 1 }
    if now - st.fetchTime > 300 then
      match get_ip env st1 with
      | .ok st2 => .ok st2 true
      | .exited st2 => .exited st2
    else .ok st1 false

/-- Index of the last occurrence of `c` in `l`, or `-1` when absent:
Python `str.rfind`. -/
def rfindIdx (c : Char) : List Char → Int
  | [] => -1
  | a :: rest =>
    let r := rfindIdx c rest
    if r ≥ 0 then r + 1
    else if a = c then 0
    else -1

/-- The stem part of CPython `posixpath.splitext` (used at line 146): the
extension starts at the last dot, provided it lies after the last path
separator and at least one non-dot character of the basename precedes it;
otherwise the whole path is the stem. -/
def splitextStemL (p : List Char) : List Char :=
  let s := rfindIdx '/' p
  let e := rfindIdx '.' p
  if e > s ∧ ((p.drop (s + 1).toNat).take (e - (s + 1)).toNat).any (fun c => c ≠ '.') then
    p.take e.toNat
  else p

/-- CPython `posixpath.join` for two components (used at line 101). -/
def joinPathL (a b : List Char) : List Char :=
  if b.head? = some '/' then b
  else if a = [] ∨ a.getLast? = some '/' then a ++ b
  else a ++ '/' :: b

/-- CPython `posixpath.basename` (used at line 163). -/
def basenameL (p : List Char) : List Char :=
  p.drop (rfindIdx '/' p + 1).toNat

/-- Python `str.endswith` (used at line 100). -/
def endsWithL (l suf : List Char) : Bool :=
  decide (l.drop (l.length - suf.length) = suf)

/-- The characters of the literal `".mp4"` tested at line 100. -/
def mp4Ext : List Char := ['.', 'm', 'p', '4']

/-- The characters of the literal `".jpg"` appended at line 146. -/
def jpgExt : List Char := ['.', 'j', 'p', 'g']

/-- The video paths selected by the nested walk loop of lines 98-101:
for each `(root, files)` entry of `os.walk(merge_path)`, in order, each
file whose name ends with `.mp4`, joined to its root. -/
def mp4Paths (entries : List (List Char × List (List Char))) : List (List Char) :=
  entries.flatMap
    (fun e => (e.2.filter (fun f => endsWithL f mp4Ext)).map (fun f => joinPathL e.1 f))

/-- Models `VideoDownloader.extract_cover_image` (lines 145-163) on one
video path: the ffmpeg command is always invoked with the output path of
line 146; a `CalledProcessError` is caught and appends the basename to
the error ledger; a timeout or invocation error propagates (third
component `true`). -/
def extract_cover_image (out : CoverOutcome) (p : List Char)
    (errors : List LedgerEntry) : CoverCall × List LedgerEntry × Bool :=
  let call : CoverCall := ⟨p, splitextStemL p ++ jpgExt⟩
  match out with
  | .ok => (call, errors, false)
  | .calledErr => (call, errors ++ [LedgerEntry.fileE (basenameL p)], true)
  | .timedOut => (call, errors, true)
  | .invokeErr => (call, errors, true)

/-- Folds `extract_cover_image` over the selected video paths in order
(the loop body at line 102): an invocation that raises aborts the rest of
the walk; returns the calls made, the error ledger, and whether an
exception escaped. -/
def runCovers (cover : List Char → CoverOutcome) :
    List (List Char) → List LedgerEntry → List CoverCall →
    List CoverCall × List LedgerEntry × Bool
  | [], errs, calls => (calls, errs, false)
  | p :: rest, errs, calls =>
    match cover p with
    | .ok => runCovers cover rest errs (calls ++ [⟨p, splitextStemL p ++ jpgExt⟩])
    | .calledErr =>
      runCovers cover rest (errs ++ [LedgerEntry.fileE (basenameL p)])
        (calls ++ [⟨p, splitextStemL p ++ jpgExt⟩])
    | .timedOut => (calls ++ [⟨p, splitextStemL p ++ jpgExt⟩], errs, true)
    | .invokeErr => (calls ++ [⟨p, splitextStemL p ++ jpgExt⟩], errs, true)

/-- Models `VideoDownloader.generate_and_run_commands` (lines 123-142)
for the single `yutto` command in `commands`: a non-zero exit, a timeout,
or an invocation error each append the avid to the error ledger; no
outcome raises to the caller. -/
def generate_and_run_commands (avid : Int) (out : DownloadOutcome)
    (errors : List LedgerEntry) : List LedgerEntry :=
  match out with
  | .exitCode c => if c != 0 then errors ++ [LedgerEntry.avidE avid] else errors
  | .timedOut => errors ++ [LedgerEntry.avidE avid]
  | .invokeErr => errors ++ [LedgerEntry.avidE avid]

/-- The per-item `try` body and `except Exception` handler of `run`
(lines 94-114): create the directories (`dirsRaise` models an `OSError`
from `os.makedirs`), run the download command (which never raises), walk
the merge directory extracting covers, and append the avid to the
progress ledger — unless an exception reached the handler, in which case
the avid is appended to the error ledger instead. -/
def processItem (env : Env) (avid : Int) (st : RunState) : RunState :=
  if env.dirsRaise avid then
    { st with errors := st.errors ++ [LedgerEntry.avidE avid] }
  else
    let errs1 := generate_and_run_commands avid (env.download avid) st.errors
    let r := runCovers env.cover (mp4Paths (env.walk avid)) errs1 []
    if r.2.2 then
      { st with
          covers := st.covers ++ r.1
          errors := r.2.1 ++ [LedgerEntry.avidE avid] }
    else
      { st with
          covers := st.covers ++ r.1
          errors := r.2.1
          progress := st.progress ++ [avid] }

/-- Result of a whole run: final state, the avids whose loop iteration
was entered, and the process exit code (0 on loop completion, 1 on
`sys.exit(1)`). -/
structure RunResult where
  st : RunState
  attempted : List Int
  exitCode : Nat

/-- The `for index, avid in enumerate(remaining_avids)` loop of `run`
(lines 90-114): before each item, `check_ip_validity` runs OUTSIDE the
per-item `try` (line 91 precedes line 94); a `sys.exit(1)` raised from
`get_ip` inside it is a `SystemExit`, which neither the per-item
`except Exception` (line 112) nor the outer `except Exception` (line 118)
intercepts, so the process terminates with exit code 1. -/
def runLoop (env : Env) : List Int → RunState → List Int → RunResult
  | [], st, att => ⟨st, att, 0⟩
  | avid :: rest, st, att =>
    match check_ip_validity env st with
    | .exited st2 => ⟨st2, att, 1⟩
    | .ok st2 _ => runLoop env rest (processItem env avid st2) (att ++ [avid])

/-- The state at the start of `run`: no requests issued, no clock reads,
`self.proxy` unset, empty ledgers. -/
def initState : RunState := ⟨0, 0, none, 0, [], [], []⟩

/-- Models `VideoDownloader.run` (lines 75-120): read the CSV (a missing
file raises `FileNotFoundError`, caught at line 115 → `sys.exit(1)`);
deduplicate the avid column preserving first-seen order (line 79); load
the progress ledger (a `ValueError` from a corrupt line is caught by the
outer `except Exception` at line 118 → `sys.exit(1)`); compute the
remaining list (line 82); fetch the initial proxy (line 87, where
retry exhaustion raises `SystemExit` → exit code 1); then drive the
per-item loop. -/
def run (env : Env) : RunResult :=
  match env.csv with
  | none => ⟨initState, [], 1⟩
  | some raw =>
    match load_progress env.progressFile with
    | .error _ => ⟨initState, [], 1⟩
    | .ok completed =>
      let remaining := (dedupFirst raw).filter (fun a => decide (a ∉ completed))
      match get_ip env initState with
      | .exited st => ⟨st, [], 1⟩
      | .ok st => runLoop env remaining st []

/-- An item-level failure for `avid` under `env`: the directory creation
raises, or the download fails, or some cover extraction on the item's
video files raises. -/
def itemFails (env : Env) (avid : Int) : Bool :=
  env.dirsRaise avid || downloadFails (env.download avid) ||
    (mp4Paths (env.walk avid)).any (fun p => coverRaises (env.cover p))

/-- The integers obtained by parsing exactly one integer per non-blank
line, in file order (the value the spec ascribes to a successful
`load_progress`). -/
def parsedIds (lines : List (List Char)) : List Int :=
  lines.filterMap (fun ln => if trimL ln = [] then none else parsePyInt (trimL ln))

/-! ## Concrete environments used to evaluate the model -/

/-- A run on the single work item 1 whose download exits non-zero; the proxy
service answers on the first request and the merge directory stays empty. -/
def envC1 : Env where
  csv := some [1]
  progressFile := none
  ipResponses := fun _ => .ok "203.0.113.5" "8080"
  clock := fun _ => 0
  dirsRaise := fun _ => false
  download := fun _ => .exitCode 1
  walk := fun _ => []
  cover := fun _ => .ok

/-- A run on work items 1 and 2 where the download of item 1 times out and
the download of item 2 succeeds. -/
def envC2W : Env where
  csv := some [1, 2]
  progressFile := none
  ipResponses := fun _ => .ok "203.0.113.5" "8080"
  clock := fun _ => 0
  dirsRaise := fun _ => false
  download := fun a => if a = 1 then .timedOut else .exitCode 0
  walk := fun _ => []
  cover := fun _ => .ok

/-- A run in which every request to the proxy-issuing service fails at the
transport level. -/
def envC3W : Env where
  csv := some [1]
  progressFile := none
  ipResponses := fun _ => .transportErr
  clock := fun _ => 0
  dirsRaise := fun _ => false
  download := fun _ => .exitCode 0
  walk := fun _ => []
  cover := fun _ => .ok

/-- An environment whose single relevant clock read returns 1301. -/
def envC4a : Env where
  csv := some []
  progressFile := none
  ipResponses := fun _ => .ok "203.0.113.5" "8080"
  clock := fun _ => 1301
  dirsRaise := fun _ => false
  download := fun _ => .exitCode 0
  walk := fun _ => []
  cover := fun _ => .ok

/-- An environment whose single relevant clock read returns 1299. -/
def envC4b : Env where
  csv := some []
  progressFile := none
  ipResponses := fun _ => .ok "203.0.113.5" "8080"
  clock := fun _ => 1299
  dirsRaise := fun _ => false
  download := fun _ => .exitCode 0
  walk := fun _ => []
  cover := fun _ => .ok

/-- A state holding a lease issued at time 1000. -/
def stC4 : RunState where
  k := 0
  clk := 0
  proxy := some "http://203.0.113.5:8080"
  fetchTime := 1000
  progress := []
  errors := []
  covers := []

/-- A state with no lease set. -/
def stC4n : RunState where
  k := 0
  clk := 0
  proxy := none
  fetchTime := 0
  progress := []
  errors := []
  covers := []

/-- A run on work item 7 whose download succeeds and produces one video
file `d/v.mp4`, on which the cover extraction then times out. -/
def envC5cx : Env where
  csv := some [7]
  progressFile := none
  ipResponses := fun _ => .ok "203.0.113.5" "8080"
  clock := fun _ => 0
  dirsRaise := fun _ => false
  download := fun _ => .exitCode 0
  walk := fun _ => [(['d'], [['v', '.', 'm', 'p', '4']])]
  cover := fun _ => .timedOut

/-- Like `envC5cx`, but the cover extraction exits non-zero
(`CalledProcessError`) instead of timing out. -/
def envC5a : Env where
  csv := some [7]
  progressFile := none
  ipResponses := fun _ => .ok "203.0.113.5" "8080"
  clock := fun _ => 0
  dirsRaise := fun _ => false
  download := fun _ => .exitCode 0
  walk := fun _ => [(['d'], [['v', '.', 'm', 'p', '4']])]
  cover := fun _ => .calledErr

/-- Like `envC5cx`: the cover extraction times out. -/
def envC5b : Env where
  csv := some [7]
  progressFile := none
  ipResponses := fun _ => .ok "203.0.113.5" "8080"
  clock := fun _ => 0
  dirsRaise := fun _ => false
  download := fun _ => .exitCode 0
  walk := fun _ => [(['d'], [['v', '.', 'm', 'p', '4']])]
  cover := fun _ => .timedOut

/-- A run on the duplicate-bearing input list `[5, 3, 5, 3, 7]` with an
absent progress-ledger file. -/
def envC6W : Env where
  csv := some [5, 3, 5, 3, 7]
  progressFile := none
  ipResponses := fun _ => .ok "203.0.113.5" "8080"
  clock := fun _ => 0
  dirsRaise := fun _ => false
  download := fun _ => .exitCode 0
  walk := fun _ => []
  cover := fun _ => .ok

/-- A run whose progress-ledger file holds the unparseable line `abc`,
while the work item itself would download fine. -/
def envC7cx : Env where
  csv := some [1]
  progressFile := some [['a', 'b', 'c']]
  ipResponses := fun _ => .ok "203.0.113.5" "8080"
  clock := fun _ => 0
  dirsRaise := fun _ => false
  download := fun _ => .exitCode 0
  walk := fun _ => []
  cover := fun _ => .ok

/-- An environment whose proxy service always returns malformed JSON and
whose clock reads 1000. -/
def envC9W : Env where
  csv := some [4]
  progressFile := none
  ipResponses := fun _ => .jsonErr
  clock := fun _ => 1000
  dirsRaise := fun _ => false
  download := fun _ => .exitCode 0
  walk := fun _ => []
  cover := fun _ => .ok

/-- A state holding a lease issued at time 0 (expired by time 1000). -/
def stC9 : RunState where
  k := 0
  clk := 0
  proxy := some "http://203.0.113.5:8080"
  fetchTime := 0
  progress := []
  errors := []
  covers := []

/-- A run where the walk finds `d/a.mp4` and `d/b.mp4` and the cover
extraction on `d/a.mp4` times out. -/
def envC10cx : Env where
  csv := some [1]
  progressFile := none
  ipResponses := fun _ => .ok "203.0.113.5" "8080"
  clock := fun _ => 0
  dirsRaise := fun _ => false
  download := fun _ => .exitCode 0
  walk := fun _ => [(['d'], [['a', '.', 'm', 'p', '4'], ['b', '.', 'm', 'p', '4']])]
  cover := fun p => if p = ['d', '/', 'a', '.', 'm', 'p', '4'] then .timedOut else .ok

/-- A run where the walk finds `d/v.mp4` and `d/n.txt` and all cover
extractions succeed. -/
def envC10W : Env where
  csv := some [1]
  progressFile := none
  ipResponses := fun _ => .ok "203.0.113.5" "8080"
  clock := fun _ => 0
  dirsRaise := fun _ => false
  download := fun _ => .exitCode 0
  walk := fun _ => [(['d'], [['v', '.', 'm', 'p', '4'], ['n', '.', 't', 'x', 't']])]
  cover := fun _ => .ok

/-! ## Lemmas about the proxy-acquisition retry loop -/

lemma getIpLoop_allFail (resp : Nat → IpOutcome) :
    ∀ n k, (∀ j, j < n → isFailOutcome (resp (k + j)) = true) →
      getIpLoop resp k n = ⟨none, n, List.replicate n 5, k + n⟩ := by
  intro n
  induction n with
  | zero => intro k _; simp [getIpLoop]
  | succ n ih =>
    intro k h
    have h0 : isFailOutcome (resp k) = true := by
      have := h 0 (by omega)
      simpa using this
    have hrest : ∀ j, j < n → isFailOutcome (resp (k + 1 + j)) = true := by
      intro j hj
      have := h (j + 1) (by omega)
      have he : k + (j + 1) = k + 1 + j := by omega
      rwa [he] at this
    have hr := ih (k + 1) hrest
    cases hresp : resp k with
    | ok ip port => rw [hresp] at h0; simp [isFailOutcome] at h0
    | transportErr =>
      simp only [getIpLoop, hresp, hr, List.replicate_succ, IpLoopOut.mk.injEq]
      simp only [true_and, and_true]
      omega
    | jsonErr =>
      simp only [getIpLoop, hresp, hr, List.replicate_succ, IpLoopOut.mk.injEq]
      simp only [true_and, and_true]
      omega
    | badStatus =>
      simp only [getIpLoop, hresp, hr, List.replicate_succ, IpLoopOut.mk.injEq]
      simp only [true_and, and_true]
      omega

lemma get_ip_allFail (env : Env) (st : RunState)
    (h : ∀ j, j < 5 → isFailOutcome (env.ipResponses (st.k + j)) = true) :
    get_ip env st = .exited { st with k := st.k + 5 } := by
  simp only [get_ip, getIpLoop_allFail env.ipResponses 5 st.k h]

lemma get_ip_ok (env : Env) (st : RunState)
    (hok : ∀ k, isFailOutcome (env.ipResponses k) = false) :
    ∃ pr, get_ip env st =
      .ok { st with
              k := st.k + 1
              clk := st.clk + 1
              proxy := some pr
              fetchTime := env.clock st.clk } := by
  cases hresp : env.ipResponses st.k with
  | ok ip port =>
    refine ⟨mkProxy ip port, ?_⟩
    simp only [get_ip, getIpLoop, hresp]
  | transportErr => have := hok st.k; rw [hresp] at this; simp [isFailOutcome] at this
  | jsonErr => have := hok st.k; rw [hresp] at this; simp [isFailOutcome] at this
  | badStatus => have := hok st.k; rw [hresp] at this; simp [isFailOutcome] at this

lemma check_ip_validity_ok (env : Env) (st : RunState)
    (hok : ∀ k, isFailOutcome (env.ipResponses k) = false) :
    ∃ st2 c, check_ip_validity env st = .ok st2 c ∧
      st2.progress = st.progress ∧ st2.errors = st.errors ∧ st2.covers = st.covers := by
  cases hp : st.proxy with
  | none =>
    obtain ⟨pr, hg⟩ := get_ip_ok env st hok
    have hcv : check_ip_validity env st =
        .ok { st with k := st.k + 1, clk := st.clk + 1, proxy := some pr,
                      fetchTime := env.clock st.clk } true := by
      simp only [check_ip_validity, hp, hg]
    exact ⟨_, _, hcv, rfl, rfl, rfl⟩
  | some p =>
    by_cases hc : env.clock st.clk - st.fetchTime > 300
    · obtain ⟨pr, hg⟩ := get_ip_ok env { st with clk := st.clk + 1 } hok
      rw [hp] at hg
      have hcv : check_ip_validity env st =
          .ok { st with k := st.k + 1, clk := st.clk + 1 + 1, proxy := some pr,
                        fetchTime := env.clock (st.clk + 1) } true := by
        simp only [check_ip_validity, hp, if_pos hc, hg]
        try rfl
      exact ⟨_, _, hcv, rfl, rfl, rfl⟩
    · have hcv : check_ip_validity env st = .ok { st with clk := st.clk + 1 } false := by
        simp only [check_ip_validity, hp, if_neg hc]
      exact ⟨_, _, hcv, rfl, rfl, rfl⟩

/-! ## Lemmas about deduplication (pandas `unique`) -/

lemma dedupFirstAux_sublist (seen : List Int) :
    ∀ l, List.Sublist (dedupFirstAux seen l) l := by
  intro l
  induction l generalizing seen with
  | nil => simp [dedupFirstAux]
  | cons a rest ih =>
    by_cases h : a ∈ seen
    · simpa [dedupFirstAux, h] using List.Sublist.cons a (ih seen)
    · simpa [dedupFirstAux, h] using List.Sublist.cons₂ a (ih (a :: seen))

lemma mem_dedupFirstAux (x : Int) :
    ∀ l seen, x ∈ dedupFirstAux seen l ↔ x ∈ l ∧ x ∉ seen := by
  intro l
  induction l with
  | nil => intro seen; simp [dedupFirstAux]
  | cons a rest ih =>
    intro seen
    by_cases h : a ∈ seen
    · simp only [dedupFirstAux, if_pos h]
      constructor
      · intro hx
        have := (ih seen).mp hx
        exact ⟨List.mem_cons_of_mem a this.1, this.2⟩
      · rintro ⟨hx, hns⟩
        rcases List.mem_cons.mp hx with rfl | hx2
        · exact absurd h hns
        · exact (ih seen).mpr ⟨hx2, hns⟩
    · simp only [dedupFirstAux, if_neg h]
      constructor
      · intro hx
        rcases List.mem_cons.mp hx with rfl | hx2
        · exact ⟨List.mem_cons_self x rest, h⟩
        · have := (ih (a :: seen)).mp hx2
          refine ⟨List.mem_cons_of_mem a this.1, fun hs => this.2 (List.mem_cons_of_mem a hs)⟩
      · rintro ⟨hx, hns⟩
        rcases List.mem_cons.mp hx with rfl | hx2
        · exact List.mem_cons_self x _
        · by_cases hxa : x = a
          · subst hxa; exact List.mem_cons_self x _
          · exact List.mem_cons_of_mem a
              ((ih (a :: seen)).mpr ⟨hx2, fun hs => by
                rcases List.mem_cons.mp hs with h1 | h2
                · exact hxa h1
                · exact hns h2⟩)

lemma dedupFirstAux_nodup : ∀ (l seen : List Int), (dedupFirstAux seen l).Nodup := by
  intro l
  induction l with
  | nil => intro seen; simp [dedupFirstAux]
  | cons a rest ih =>
    intro seen
    by_cases h : a ∈ seen
    · simpa [dedupFirstAux, h] using ih seen
    · simp only [dedupFirstAux, if_neg h]
      refine List.nodup_cons.mpr ⟨?_, ih (a :: seen)⟩
      intro hmem
      exact ((mem_dedupFirstAux a rest (a :: seen)).mp hmem).2 (List.mem_cons_self a seen)

lemma dedupFirstAux_congr (seen seen' : List Int)
    (h : ∀ x, x ∈ seen ↔ x ∈ seen') :
    ∀ l, dedupFirstAux seen l = dedupFirstAux seen' l := by
  intro l
  induction l generalizing seen seen' with
  | nil => simp [dedupFirstAux]
  | cons a rest ih =>
    by_cases ha : a ∈ seen
    · have ha' : a ∈ seen' := (h a).mp ha
      simp only [dedupFirstAux, if_pos ha, if_pos ha']
      exact ih seen seen' h
    · have ha' : a ∉ seen' := fun hx => ha ((h a).mpr hx)
      simp only [dedupFirstAux, if_neg ha, if_neg ha']
      rw [ih (a :: seen) (a :: seen') (by intro x; simp [h x])]

lemma dedupFirstAux_filter (a : Int) :
    ∀ (l : List Int) (seen : List Int),
      dedupFirstAux (a :: seen) l =
        dedupFirstAux seen (l.filter (fun x => decide (x ≠ a))) := by
  intro l
  induction l with
  | nil => intro seen; simp [dedupFirstAux]
  | cons b rest ih =>
    intro seen
    by_cases hba : b = a
    · have h1 : b ∈ a :: seen := by rw [hba]; exact List.mem_cons_self a seen
      have h2 : (decide (b ≠ a)) = false := by simp [hba]
      simp only [dedupFirstAux, if_pos h1, List.filter_cons, h2, Bool.false_eq_true,
        if_false]
      exact ih seen
    · have h2 : (decide (b ≠ a)) = true := by simp [hba]
      simp only [List.filter_cons, h2, if_true]
      by_cases hbs : b ∈ seen
      · have h1 : b ∈ a :: seen := List.mem_cons_of_mem a hbs
        simp only [dedupFirstAux, if_pos h1, if_pos hbs]
        exact ih seen
      · have h1 : b ∉ a :: seen := by
          intro hx
          rcases List.mem_cons.mp hx with h2 | h2
          · exact hba h2
          · exact hbs h2
        simp only [dedupFirstAux, if_neg h1, if_neg hbs]
        rw [dedupFirstAux_congr (b :: a :: seen) (a :: b :: seen)
          (by intro x; simp only [List.mem_cons]; tauto) rest]
        rw [ih (b :: seen)]

lemma dedupFirst_cons (a : Int) (l : List Int) :
    dedupFirst (a :: l) = a :: dedupFirst (l.filter (fun x => decide (x ≠ a))) := by
  simp only [dedupFirst, dedupFirstAux, List.not_mem_nil, if_neg (fun h => h)]
  rw [dedupFirstAux_filter a l []]

/-! ## Lemmas about loading the progress ledger -/

lemma loadLines_allGood :
    ∀ (lines : List (List Char)) (acc : List Int),
      (∀ ln ∈ lines, trimL ln ≠ [] → (parsePyInt (trimL ln)).isSome = true) →
      loadLines lines acc = .ok ((parsedIds lines).reverse ++ acc) := by
  intro lines
  induction lines with
  | nil => intro acc _; simp [loadLines, parsedIds]
  | cons ln rest ih =>
    intro acc h
    by_cases hb : trimL ln = []
    · simp only [loadLines, if_pos hb, parsedIds, List.filterMap_cons, if_pos hb]
      exact ih acc (fun x hx => h x (List.mem_cons_of_mem ln hx))
    · have hs : (parsePyInt (trimL ln)).isSome = true :=
        h ln (List.mem_cons_self ln rest) hb
      obtain ⟨n, hn⟩ := Option.isSome_iff_exists.mp hs
      simp only [loadLines, if_neg hb, hn]
      rw [ih (n :: acc) (fun x hx => h x (List.mem_cons_of_mem ln hx))]
      simp only [parsedIds, List.filterMap_cons, if_neg hb, hn]
      simp [List.reverse_cons, List.append_assoc]

lemma mem_parsedIds (n : Int) (lines : List (List Char)) :
    n ∈ parsedIds lines ↔
      ∃ ln ∈ lines, trimL ln ≠ [] ∧ parsePyInt (trimL ln) = some n := by
  simp only [parsedIds, List.mem_filterMap]
  constructor
  · rintro ⟨ln, hmem, hv⟩
    by_cases hb : trimL ln = []
    · rw [if_pos hb] at hv; exact absurd hv (by simp)
    · rw [if_neg hb] at hv; exact ⟨ln, hmem, hb, hv⟩
  · rintro ⟨ln, hmem, hb, hv⟩
    exact ⟨ln, hmem, by rw [if_neg hb]; exact hv⟩

lemma loadLines_bad :
    ∀ (lines : List (List Char)) (acc : List Int),
      (∃ ln ∈ lines, trimL ln ≠ [] ∧ parsePyInt (trimL ln) = none) →
      loadLines lines acc = .error () := by
  intro lines
  induction lines with
  | nil => rintro acc ⟨ln, hmem, _⟩; exact absurd hmem (List.not_mem_nil ln)
  | cons hd rest ih =>
    rintro acc ⟨ln, hmem, hnb, hbad⟩
    by_cases hb : trimL hd = []
    · have hne : ln ≠ hd := fun he => hnb (he ▸ hb)
      have : ln ∈ rest := by
        rcases List.mem_cons.mp hmem with h1 | h1
        · exact absurd h1 hne
        · exact h1
      simp only [loadLines, if_pos hb]
      exact ih acc ⟨ln, this, hnb, hbad⟩
    · cases hp : parsePyInt (trimL hd) with
      | none => simp only [loadLines, if_neg hb, hp]
      | some m =>
        have hne : ln ≠ hd := fun he => by rw [he, hp] at hbad; exact Option.noConfusion hbad
        have hmem2 : ln ∈ rest := by
          rcases List.mem_cons.mp hmem with h1 | h1
          · exact absurd h1 hne
          · exact h1
        simp only [loadLines, if_neg hb, hp]
        exact ih (m :: acc) ⟨ln, hmem2, hnb, hbad⟩

/-! ## Lemmas about the per-item processing -/

lemma generate_fail (avid : Int) (out : DownloadOutcome) (errs : List LedgerEntry)
    (h : downloadFails out = true) :
    generate_and_run_commands avid out errs = errs ++ [LedgerEntry.avidE avid] := by
  cases out with
  | exitCode c =>
    simp only [downloadFails] at h
    simp only [generate_and_run_commands, h, if_true]
  | timedOut => rfl
  | invokeErr => rfl

lemma generate_extends (avid : Int) (out : DownloadOutcome) (errs : List LedgerEntry) :
    ∃ t, generate_and_run_commands avid out errs = errs ++ t := by
  cases out with
  | exitCode c =>
    by_cases h : (c != 0) = true
    · exact ⟨[LedgerEntry.avidE avid], by simp [generate_and_run_commands, h]⟩
    · exact ⟨[], by simp [generate_and_run_commands, h]⟩
  | timedOut => exact ⟨[LedgerEntry.avidE avid], rfl⟩
  | invokeErr => exact ⟨[LedgerEntry.avidE avid], rfl⟩

lemma runCovers_errs_extends (cover : List Char → CoverOutcome) :
    ∀ (ps : List (List Char)) (errs : List LedgerEntry) (calls : List CoverCall),
      ∃ t, (runCovers cover ps errs calls).2.1 = errs ++ t := by
  intro ps
  induction ps with
  | nil => intro errs calls; exact ⟨[], by simp [runCovers]⟩
  | cons p rest ih =>
    intro errs calls
    cases hc : cover p with
    | ok =>
      obtain ⟨t, ht⟩ := ih errs (calls ++ [⟨p, splitextStemL p ++ jpgExt⟩])
      exact ⟨t, by simp [runCovers, hc, ht]⟩
    | calledErr =>
      obtain ⟨t, ht⟩ := ih (errs ++ [LedgerEntry.fileE (basenameL p)])
        (calls ++ [⟨p, splitextStemL p ++ jpgExt⟩])
      refine ⟨[LedgerEntry.fileE (basenameL p)] ++ t, ?_⟩
      simp only [runCovers, hc, ht, List.append_assoc]
    | timedOut => exact ⟨[], by simp [runCovers, hc]⟩
    | invokeErr => exact ⟨[], by simp [runCovers, hc]⟩

lemma runCovers_calls_take (cover : List Char → CoverOutcome) :
    ∀ (ps : List (List Char)) (errs : List LedgerEntry) (calls : List CoverCall),
      ∃ m, m ≤ ps.length ∧
        (runCovers cover ps errs calls).1 =
          calls ++ (ps.take m).map
            (fun p => (⟨p, splitextStemL p ++ jpgExt⟩ : CoverCall)) := by
  intro ps
  induction ps with
  | nil => intro errs calls; exact ⟨0, by simp, by simp [runCovers]⟩
  | cons p rest ih =>
    intro errs calls
    cases hc : cover p with
    | ok =>
      obtain ⟨m, hm, hcalls⟩ := ih errs (calls ++ [⟨p, splitextStemL p ++ jpgExt⟩])
      refine ⟨m + 1, by simpa using hm, ?_⟩
      simp only [runCovers, hc, hcalls, List.take_succ_cons, List.map_cons,
        List.append_assoc, List.singleton_append]
    | calledErr =>
      obtain ⟨m, hm, hcalls⟩ := ih (errs ++ [LedgerEntry.fileE (basenameL p)])
        (calls ++ [⟨p, splitextStemL p ++ jpgExt⟩])
      refine ⟨m + 1, by simpa using hm, ?_⟩
      simp only [runCovers, hc, hcalls, List.take_succ_cons, List.map_cons,
        List.append_assoc, List.singleton_append]
    | timedOut =>
      refine ⟨1, by simp, ?_⟩
      simp [runCovers, hc]
    | invokeErr =>
      refine ⟨1, by simp, ?_⟩
      simp [runCovers, hc]

lemma runCovers_noRaise (cover : List Char → CoverOutcome) :
    ∀ (ps : List (List Char)) (errs : List LedgerEntry) (calls : List CoverCall),
      (∀ p ∈ ps, coverRaises (cover p) = false) →
      (runCovers cover ps errs calls).2.2 = false ∧
      (runCovers cover ps errs calls).1 =
        calls ++ ps.map (fun p => (⟨p, splitextStemL p ++ jpgExt⟩ : CoverCall)) := by
  intro ps
  induction ps with
  | nil => intro errs calls _; exact ⟨rfl, by simp [runCovers]⟩
  | cons p rest ih =>
    intro errs calls h
    have hrest : ∀ q ∈ rest, coverRaises (cover q) = false :=
      fun q hq => h q (List.mem_cons_of_mem p hq)
    cases hc : cover p with
    | ok =>
      obtain ⟨h1, h2⟩ := ih errs (calls ++ [⟨p, splitextStemL p ++ jpgExt⟩]) hrest
      refine ⟨by simpa [runCovers, hc] using h1, ?_⟩
      simp only [runCovers, hc, h2, List.map_cons, List.append_assoc, List.singleton_append]
    | calledErr =>
      obtain ⟨h1, h2⟩ := ih (errs ++ [LedgerEntry.fileE (basenameL p)])
        (calls ++ [⟨p, splitextStemL p ++ jpgExt⟩]) hrest
      refine ⟨by simpa [runCovers, hc] using h1, ?_⟩
      simp only [runCovers, hc, h2, List.map_cons, List.append_assoc, List.singleton_append]
    | timedOut =>
      have := h p (List.mem_cons_self p rest)
      rw [hc] at this
      simp [coverRaises] at this
    | invokeErr =>
      have := h p (List.mem_cons_self p rest)
      rw [hc] at this
      simp [coverRaises] at this

lemma runCovers_calledErr_mem (cover : List Char → CoverOutcome) :
    ∀ (ps : List (List Char)) (errs : List LedgerEntry) (calls : List CoverCall)
      (p : List Char), p ∈ ps → cover p = .calledErr →
      (∀ q ∈ ps, coverRaises (cover q) = false) →
      LedgerEntry.fileE (basenameL p) ∈ (runCovers cover ps errs calls).2.1 := by
  intro ps
  induction ps with
  | nil => intro errs calls p hp; exact absurd hp (List.not_mem_nil p)
  | cons q rest ih =>
    intro errs calls p hp hcall h
    have hrest : ∀ x ∈ rest, coverRaises (cover x) = false :=
      fun x hx => h x (List.mem_cons_of_mem q hx)
    rcases List.mem_cons.mp hp with rfl | hp2
    · rw [runCovers, hcall]
      obtain ⟨t, ht⟩ := runCovers_errs_extends cover rest
        (errs ++ [LedgerEntry.fileE (basenameL p)]) (calls ++ [⟨p, splitextStemL p ++ jpgExt⟩])
      rw [ht, List.append_assoc]
      exact List.mem_append_right errs (List.mem_append_left t (List.mem_singleton.mpr rfl))
    · cases hc : cover q with
      | ok =>
        rw [runCovers, hc]
        exact ih errs _ p hp2 hcall hrest
      | calledErr =>
        rw [runCovers, hc]
        exact ih _ _ p hp2 hcall hrest
      | timedOut =>
        have := h q (List.mem_cons_self q rest)
        rw [hc] at this
        simp [coverRaises] at this
      | invokeErr =>
        have := h q (List.mem_cons_self q rest)
        rw [hc] at this
        simp [coverRaises] at this

lemma runCovers_raise (cover : List Char → CoverOutcome) :
    ∀ (ps : List (List Char)) (errs : List LedgerEntry) (calls : List CoverCall),
      (∃ p ∈ ps, coverRaises (cover p) = true) →
      (runCovers cover ps errs calls).2.2 = true := by
  intro ps
  induction ps with
  | nil => rintro errs calls ⟨p, hp, _⟩; exact absurd hp (List.not_mem_nil p)
  | cons q rest ih =>
    rintro errs calls ⟨p, hp, hr⟩
    cases hc : cover q with
    | ok =>
      have hp2 : p ∈ rest := by
        rcases List.mem_cons.mp hp with rfl | h2
        · rw [hc] at hr; simp [coverRaises] at hr
        · exact h2
      rw [runCovers, hc]
      exact ih errs _ ⟨p, hp2, hr⟩
    | calledErr =>
      have hp2 : p ∈ rest := by
        rcases List.mem_cons.mp hp with rfl | h2
        · rw [hc] at hr; simp [coverRaises] at hr
        · exact h2
      rw [runCovers, hc]
      exact ih _ _ ⟨p, hp2, hr⟩
    | timedOut => rw [runCovers, hc]
    | invokeErr => rw [runCovers, hc]

lemma processItem_def (env : Env) (avid : Int) (st : RunState)
    (hd2 : env.dirsRaise avid = false) :
    processItem env avid st =
      if (runCovers env.cover (mp4Paths (env.walk avid))
            (generate_and_run_commands avid (env.download avid) st.errors) []).2.2 then
        { st with
            covers := st.covers ++ (runCovers env.cover (mp4Paths (env.walk avid))
              (generate_and_run_commands avid (env.download avid) st.errors) []).1
            errors := (runCovers env.cover (mp4Paths (env.walk avid))
              (generate_and_run_commands avid (env.download avid) st.errors) []).2.1
              ++ [LedgerEntry.avidE avid] }
      else
        { st with
            covers := st.covers ++ (runCovers env.cover (mp4Paths (env.walk avid))
              (generate_and_run_commands avid (env.download avid) st.errors) []).1
            errors := (runCovers env.cover (mp4Paths (env.walk avid))
              (generate_and_run_commands avid (env.download avid) st.errors) []).2.1
            progress := st.progress ++ [avid] } := by
  simp only [processItem, hd2, Bool.false_eq_true, if_false]

lemma processItem_errors_extends (env : Env) (avid : Int) (st : RunState) :
    ∃ t, (processItem env avid st).errors = st.errors ++ t := by
  by_cases hd : env.dirsRaise avid = true
  · exact ⟨[LedgerEntry.avidE avid], by simp [processItem, hd]⟩
  · have hd2 : env.dirsRaise avid = false := by simpa using hd
    obtain ⟨t1, ht1⟩ := generate_extends avid (env.download avid) st.errors
    obtain ⟨t2, ht2⟩ := runCovers_errs_extends env.cover (mp4Paths (env.walk avid))
      (generate_and_run_commands avid (env.download avid) st.errors) []
    rw [processItem_def env avid st hd2]
    by_cases hr : (runCovers env.cover (mp4Paths (env.walk avid))
        (generate_and_run_commands avid (env.download avid) st.errors) []).2.2 = true
    · refine ⟨t1 ++ (t2 ++ [LedgerEntry.avidE avid]), ?_⟩
      rw [if_pos hr]
      show (runCovers env.cover (mp4Paths (env.walk avid))
        (generate_and_run_commands avid (env.download avid) st.errors) []).2.1
          ++ [LedgerEntry.avidE avid] = _
      rw [ht2, ht1]
      simp [List.append_assoc]
    · refine ⟨t1 ++ t2, ?_⟩
      rw [if_neg hr]
      show (runCovers env.cover (mp4Paths (env.walk avid))
        (generate_and_run_commands avid (env.download avid) st.errors) []).2.1 = _
      rw [ht2, ht1]
      simp [List.append_assoc]

lemma processItem_fail_mem (env : Env) (avid : Int) (st : RunState)
    (h : itemFails env avid = true) :
    LedgerEntry.avidE avid ∈ (processItem env avid st).errors := by
  by_cases hd : env.dirsRaise avid = true
  · simp [processItem, hd]
  · have hd2 : env.dirsRaise avid = false := by simpa using hd
    simp only [itemFails, hd2, Bool.false_or, Bool.or_eq_true] at h
    rw [processItem_def env avid st hd2]
    by_cases hr : (runCovers env.cover (mp4Paths (env.walk avid))
        (generate_and_run_commands avid (env.download avid) st.errors) []).2.2 = true
    · rw [if_pos hr]
      simp
    · rcases h with hdl | hcov
      · obtain ⟨t2, ht2⟩ := runCovers_errs_extends env.cover (mp4Paths (env.walk avid))
          (generate_and_run_commands avid (env.download avid) st.errors) []
        rw [if_neg hr]
        show LedgerEntry.avidE avid ∈ (runCovers env.cover (mp4Paths (env.walk avid))
          (generate_and_run_commands avid (env.download avid) st.errors) []).2.1
        rw [ht2, generate_fail avid (env.download avid) st.errors hdl]
        simp
      · exfalso
        apply hr
        apply runCovers_raise
        obtain ⟨p, hp, hpr⟩ := List.any_eq_true.mp hcov
        exact ⟨p, hp, hpr⟩

/-! ## Lemmas about the batch loop -/

lemma runLoop_ok (env : Env)
    (hok : ∀ k, isFailOutcome (env.ipResponses k) = false) :
    ∀ (items : List Int) (st : RunState) (att : List Int),
      (runLoop env items st att).exitCode = 0 ∧
      (runLoop env items st att).attempted = att ++ items ∧
      (∃ t, (runLoop env items st att).st.errors = st.errors ++ t) ∧
      (∀ a ∈ items, itemFails env a = true →
        LedgerEntry.avidE a ∈ (runLoop env items st att).st.errors) := by
  intro items
  induction items with
  | nil =>
    intro st att
    exact ⟨rfl, by simp [runLoop], ⟨[], by simp [runLoop]⟩, by simp⟩
  | cons a rest ih =>
    intro st att
    obtain ⟨st2, c, hcv, hpr, herr, hcov⟩ := check_ip_validity_ok env st hok
    have hloop : runLoop env (a :: rest) st att =
        runLoop env rest (processItem env a st2) (att ++ [a]) := by
      simp [runLoop, hcv]
    obtain ⟨he, hat, ⟨t, hext⟩, hmem⟩ := ih (processItem env a st2) (att ++ [a])
    obtain ⟨t0, ht0⟩ := processItem_errors_extends env a st2
    refine ⟨by rw [hloop]; exact he, by rw [hloop, hat]; simp, ?_, ?_⟩
    · refine ⟨t0 ++ t, ?_⟩
      rw [hloop, hext, ht0, herr]
      simp [List.append_assoc]
    · intro x hx hfail
      rcases List.mem_cons.mp hx with rfl | hx2
      · have h1 : LedgerEntry.avidE x ∈ (processItem env x st2).errors :=
          processItem_fail_mem env x st2 hfail
        rw [hloop, hext]
        exact List.mem_append_left t h1
      · rw [hloop]
        exact hmem x hx2 hfail

lemma run_ok (env : Env) (l completed : List Int)
    (hcsv : env.csv = some l)
    (hload : load_progress env.progressFile = .ok completed)
    (hok : ∀ k, isFailOutcome (env.ipResponses k) = false) :
    (run env).exitCode = 0 ∧
    (run env).attempted = (dedupFirst l).filter (fun a => decide (a ∉ completed)) ∧
    (∀ a ∈ (run env).attempted, itemFails env a = true →
      LedgerEntry.avidE a ∈ (run env).st.errors) := by
  obtain ⟨pr, hg⟩ := get_ip_ok env initState hok
  have hrun : run env = runLoop env
      ((dedupFirst l).filter (fun a => decide (a ∉ completed)))
      { initState with
          k := initState.k + 1
          clk := initState.clk + 1
          proxy := some pr
          fetchTime := env.clock initState.clk } [] := by
    simp only [run, hcsv, hload, hg]
  obtain ⟨he, hat, hext, hmem⟩ := runLoop_ok env hok
    ((dedupFirst l).filter (fun a => decide (a ∉ completed)))
    { initState with
        k := initState.k + 1
        clk := initState.clk + 1
        proxy := some pr
        fetchTime := env.clock initState.clk } []
  refine ⟨by rw [hrun]; exact he, by rw [hrun, hat]; simp, ?_⟩
  intro a ha hfail
  rw [hrun]
  apply hmem a _ hfail
  rw [hrun, hat] at ha
  simpa using ha

/-! ## Lemmas about path manipulation (`os.path`) -/

lemma rfindIdx_nonneg (c : Char) : ∀ l : List Char, 0 ≤ rfindIdx c l ↔ c ∈ l := by
  intro l
  induction l with
  | nil => simp [rfindIdx]
  | cons a rest ih =>
    simp only [rfindIdx]
    by_cases h : rfindIdx c rest ≥ 0
    · rw [if_pos h]
      constructor
      · intro _; exact List.mem_cons_of_mem a (ih.mp h)
      · intro _; omega
    · rw [if_neg h]
      by_cases ha : a = c
      · rw [if_pos ha]
        simp [ha, List.mem_cons]
      · rw [if_neg ha]
        constructor
        · intro hx; omega
        · intro hx
          rcases List.mem_cons.mp hx with h1 | h1
          · exact absurd h1.symm ha
          · exact absurd (ih.mpr h1) h

lemma rfindIdx_not_mem (c : Char) : ∀ l : List Char, c ∉ l → rfindIdx c l = -1 := by
  intro l
  induction l with
  | nil => intro _; rfl
  | cons a rest ih =>
    intro h
    have ha : a ≠ c := fun he => h (he ▸ List.mem_cons_self a rest)
    have hrest : c ∉ rest := fun hx => h (List.mem_cons_of_mem a hx)
    show (if rfindIdx c rest ≥ 0 then rfindIdx c rest + 1
          else if a = c then 0 else -1) = -1
    rw [ih hrest, if_neg (by omega), if_neg ha]

lemma rfindIdx_append (c : Char) (l2 : List Char) : ∀ l1 : List Char,
    rfindIdx c (l1 ++ l2) =
      if c ∈ l2 then (l1.length : Int) + rfindIdx c l2 else rfindIdx c l1 := by
  intro l1
  induction l1 with
  | nil =>
    by_cases h : c ∈ l2
    · simp [h]
    · simp only [List.nil_append, if_neg h]
      rw [rfindIdx_not_mem c l2 h]
      rfl
  | cons a rest ih =>
    show (if rfindIdx c (rest ++ l2) ≥ 0 then rfindIdx c (rest ++ l2) + 1
          else if a = c then 0 else -1) = _
    rw [ih]
    by_cases h2 : c ∈ l2
    · rw [if_pos h2, if_pos h2]
      have h0 : 0 ≤ rfindIdx c l2 := (rfindIdx_nonneg c l2).mpr h2
      rw [if_pos (show ((rest.length : Int) + rfindIdx c l2) ≥ 0 by omega)]
      simp only [List.length_cons]
      push_cast
      omega
    · rw [if_neg h2, if_neg h2]
      show _ = (if rfindIdx c rest ≥ 0 then rfindIdx c rest + 1
                else if a = c then 0 else -1)
      rfl

lemma rfindIdx_getLast (c : Char) : ∀ l : List Char, l.getLast? = some c →
    rfindIdx c l = (l.length : Int) - 1 := by
  intro l
  induction l with
  | nil => intro h; simp at h
  | cons a rest ih =>
    intro h
    cases rest with
    | nil =>
      simp only [List.getLast?_singleton, Option.some.injEq] at h
      simp [rfindIdx, h]
    | cons b rest2 =>
      have h2 : (b :: rest2).getLast? = some c := by
        rwa [List.getLast?_cons_cons] at h
      have hr := ih h2
      show (if rfindIdx c (b :: rest2) ≥ 0 then rfindIdx c (b :: rest2) + 1
            else if a = c then 0 else -1) = _
      rw [hr]
      rw [if_pos (show ((b :: rest2).length : Int) - 1 ≥ 0 by
        simp only [List.length_cons]; push_cast; omega)]
      simp only [List.length_cons]
      push_cast
      omega

lemma splitextStem_concat (pre b : List Char)
    (hpre : rfindIdx '/' pre = (pre.length : Int) - 1)
    (hb : '/' ∉ b) (hnd : ∃ c ∈ b, c ≠ '.') :
    splitextStemL (pre ++ (b ++ mp4Ext)) = pre ++ b := by
  have hdot : rfindIdx '.' (pre ++ (b ++ mp4Ext)) =
      (pre.length : Int) + (b.length : Int) := by
    rw [rfindIdx_append '.' (b ++ mp4Ext) pre,
      if_pos (List.mem_append_right b (show '.' ∈ mp4Ext by decide)),
      rfindIdx_append '.' mp4Ext b, if_pos (show '.' ∈ mp4Ext by decide),
      show rfindIdx '.' mp4Ext = 0 by decide]
    omega
  have hslash : rfindIdx '/' (pre ++ (b ++ mp4Ext)) = (pre.length : Int) - 1 := by
    rw [rfindIdx_append '/' (b ++ mp4Ext) pre, if_neg, hpre]
    intro hx
    rcases List.mem_append.mp hx with h1 | h1
    · exact hb h1
    · exact absurd h1 (by decide)
  simp only [splitextStemL, hdot, hslash]
  have hs1 : (((pre.length : Int) - 1) + 1).toNat = pre.length := by omega
  have he1 : ((pre.length : Int) + (b.length : Int) -
      (((pre.length : Int) - 1) + 1)).toNat = b.length := by omega
  have he2 : ((pre.length : Int) + (b.length : Int)).toNat = pre.length + b.length := by
    omega
  rw [hs1, he1, he2, List.drop_left, List.take_left]
  rw [if_pos]
  · rw [show pre ++ (b ++ mp4Ext) = (pre ++ b) ++ mp4Ext from (List.append_assoc pre b mp4Ext).symm,
      show pre.length + b.length = (pre ++ b).length from (List.length_append pre b).symm,
      List.take_left]
  · constructor
    · omega
    · obtain ⟨c0, hc0, hc0d⟩ := hnd
      exact List.any_eq_true.mpr ⟨c0, hc0, by simpa using hc0d⟩

lemma joinPathL_shape (root f : List Char) (hf : f.head? ≠ some '/') :
    joinPathL root f =
      (if root = [] ∨ root.getLast? = some '/' then root else root ++ ['/']) ++ f := by
  simp only [joinPathL, if_neg hf]
  by_cases h : root = [] ∨ root.getLast? = some '/'
  · rw [if_pos h, if_pos h]
  · rw [if_neg h, if_neg h]
    simp

lemma joinPre_slash (root : List Char) :
    rfindIdx '/' (if root = [] ∨ root.getLast? = some '/' then root else root ++ ['/']) =
      ((if root = [] ∨ root.getLast? = some '/' then root
        else root ++ ['/']).length : Int) - 1 := by
  by_cases h : root = [] ∨ root.getLast? = some '/'
  · rw [if_pos h]
    rcases h with h1 | h1
    · subst h1; simp [rfindIdx]
    · exact rfindIdx_getLast '/' root h1
  · rw [if_neg h]
    rw [rfindIdx_append '/' ['/'] root, if_pos (by simp),
      show rfindIdx '/' ['/'] = 0 by decide]
    simp

lemma cover_output_replaces_ext (root b : List Char)
    (hb : '/' ∉ b) (hnd : ∃ c ∈ b, c ≠ '.') :
    splitextStemL (joinPathL root (b ++ mp4Ext)) ++ jpgExt =
      joinPathL root (b ++ jpgExt) := by
  obtain ⟨c0, hc0, hc0d⟩ := hnd
  have hbne : b ≠ [] := by rintro rfl; exact absurd hc0 (List.not_mem_nil c0)
  obtain ⟨hd, tl, rfl⟩ := List.exists_cons_of_ne_nil hbne
  have hhd : hd ≠ '/' := fun he => hb (he ▸ List.mem_cons_self hd tl)
  have hh1 : ((hd :: tl) ++ mp4Ext).head? ≠ some '/' := by
    intro hcontra
    rw [show ((hd :: tl) ++ mp4Ext).head? = some hd from rfl] at hcontra
    exact hhd (Option.some.inj hcontra)
  have hh2 : ((hd :: tl) ++ jpgExt).head? ≠ some '/' := by
    intro hcontra
    rw [show ((hd :: tl) ++ jpgExt).head? = some hd from rfl] at hcontra
    exact hhd (Option.some.inj hcontra)
  rw [joinPathL_shape root _ hh1, joinPathL_shape root _ hh2,
    splitextStem_concat _ _ (joinPre_slash root) hb ⟨c0, hc0, hc0d⟩,
    List.append_assoc]

lemma mem_mp4Paths (entries : List (List Char × List (List Char))) (p : List Char) :
    p ∈ mp4Paths entries ↔
      ∃ e ∈ entries, ∃ f ∈ e.2, endsWithL f mp4Ext = true ∧ p = joinPathL e.1 f := by
  simp only [mp4Paths, List.mem_flatMap, List.mem_map, List.mem_filter]
  constructor
  · rintro ⟨e, he, f, ⟨hf, hend⟩, rfl⟩
    exact ⟨e, he, f, hf, hend, rfl⟩
  · rintro ⟨e, he, f, hf, hend, rfl⟩
    exact ⟨e, he, f, ⟨hf, hend⟩, rfl⟩

/-! ## Lemmas about the cover-extraction pass of one item -/

lemma processItem_covers_take (env : Env) (avid : Int) (st : RunState)
    (hd2 : env.dirsRaise avid = false) :
    ∃ m, m ≤ (mp4Paths (env.walk avid)).length ∧
      (processItem env avid st).covers = st.covers ++
        ((mp4Paths (env.walk avid)).take m).map
          (fun p => (⟨p, splitextStemL p ++ jpgExt⟩ : CoverCall)) := by
  obtain ⟨m, hm, hcalls⟩ := runCovers_calls_take env.cover (mp4Paths (env.walk avid))
    (generate_and_run_commands avid (env.download avid) st.errors) []
  refine ⟨m, hm, ?_⟩
  rw [processItem_def env avid st hd2]
  by_cases hr : (runCovers env.cover (mp4Paths (env.walk avid))
      (generate_and_run_commands avid (env.download avid) st.errors) []).2.2 = true
  · rw [if_pos hr]
    show st.covers ++ _ = _
    rw [hcalls]
    simp
  · rw [if_neg hr]
    show st.covers ++ _ = _
    rw [hcalls]
    simp

lemma processItem_covers_all (env : Env) (avid : Int) (st : RunState)
    (hd2 : env.dirsRaise avid = false)
    (hnr : ∀ p ∈ mp4Paths (env.walk avid), coverRaises (env.cover p) = false) :
    (processItem env avid st).covers = st.covers ++
      (mp4Paths (env.walk avid)).map
        (fun p => (⟨p, splitextStemL p ++ jpgExt⟩ : CoverCall)) := by
  obtain ⟨hflag, hcalls⟩ := runCovers_noRaise env.cover (mp4Paths (env.walk avid))
    (generate_and_run_commands avid (env.download avid) st.errors) [] hnr
  rw [processItem_def env avid st hd2, if_neg (by rw [hflag]; exact Bool.false_ne_true)]
  show st.covers ++ _ = _
  rw [hcalls]
  simp

lemma processItem_noRaise_progress (env : Env) (avid : Int) (st : RunState)
    (hd2 : env.dirsRaise avid = false)
    (hnr : ∀ p ∈ mp4Paths (env.walk avid), coverRaises (env.cover p) = false) :
    (processItem env avid st).progress = st.progress ++ [avid] := by
  obtain ⟨hflag, _⟩ := runCovers_noRaise env.cover (mp4Paths (env.walk avid))
    (generate_and_run_commands avid (env.download avid) st.errors) [] hnr
  rw [processItem_def env avid st hd2, if_neg (by rw [hflag]; exact Bool.false_ne_true)]

lemma processItem_raise_aborts (env : Env) (avid : Int) (st : RunState)
    (hd2 : env.dirsRaise avid = false)
    (hex : ∃ p ∈ mp4Paths (env.walk avid), coverRaises (env.cover p) = true) :
    (processItem env avid st).progress = st.progress ∧
      LedgerEntry.avidE avid ∈ (processItem env avid st).errors := by
  have hflag := runCovers_raise env.cover (mp4Paths (env.walk avid))
    (generate_and_run_commands avid (env.download avid) st.errors) [] hex
  rw [processItem_def env avid st hd2, if_pos hflag]
  exact ⟨rfl, by simp⟩

lemma processItem_calledErr_mem (env : Env) (avid : Int) (st : RunState)
    (p : List Char) (hd2 : env.dirsRaise avid = false)
    (hp : p ∈ mp4Paths (env.walk avid)) (hcall : env.cover p = .calledErr)
    (hnr : ∀ q ∈ mp4Paths (env.walk avid), coverRaises (env.cover q) = false) :
    LedgerEntry.fileE (basenameL p) ∈ (processItem env avid st).errors := by
  obtain ⟨hflag, _⟩ := runCovers_noRaise env.cover (mp4Paths (env.walk avid))
    (generate_and_run_commands avid (env.download avid) st.errors) [] hnr
  rw [processItem_def env avid st hd2, if_neg (by rw [hflag]; exact Bool.false_ne_true)]
  show LedgerEntry.fileE (basenameL p) ∈ (runCovers env.cover (mp4Paths (env.walk avid))
    (generate_and_run_commands avid (env.download avid) st.errors) []).2.1
  exact runCovers_calledErr_mem env.cover (mp4Paths (env.walk avid)) _ [] p hp hcall hnr

lemma checkCalled_match (g : GetIpResult) :
    checkCalled (match g with
      | GetIpResult.ok st2 => CheckResult.ok st2 true
      | GetIpResult.exited st2 => CheckResult.exited st2) = true := by
  cases g <;> rfl

/-! ## Claim theorems -/

/-- C1: the claim states that a work item whose download fails is never
appended to the Progress Ledger in that run.  The code violates this:
`generate_and_run_commands` catches every download failure internally
(lines 134-142) and returns normally, so `run` still reaches
`log_progress(avid)` at line 103.  Evaluated at `envC1` (one item, download
exits non-zero): the download fails, yet item 1 IS appended to the progress
ledger (and also recorded in the error ledger), and the run completes with
exit code 0. -/
theorem C1_failed_download_marked_complete :
    downloadFails (envC1.download 1) = true ∧
    (run envC1).st.progress = [1] ∧
    LedgerEntry.avidE 1 ∈ (run envC1).st.errors ∧
    (run envC1).exitCode = 0 := by decide

/-- C2: an item-level failure (directory-creation error, download failure,
or a cover extraction that raises) never terminates the batch.  Whenever the
CSV is readable, the progress ledger parses, and the proxy service answers,
the run exits 0, every remaining item is attempted in order, and every
failing item is recorded in the Error Ledger. -/
theorem C2_item_failure_isolated (env : Env) (l completed : List Int)
    (hcsv : env.csv = some l)
    (hload : load_progress env.progressFile = .ok completed)
    (hok : ∀ k, isFailOutcome (env.ipResponses k) = false) :
    (run env).exitCode = 0 ∧
    (run env).attempted = (dedupFirst l).filter (fun a => decide (a ∉ completed)) ∧
    (∀ a ∈ (run env).attempted, itemFails env a = true →
      LedgerEntry.avidE a ∈ (run env).st.errors) :=
  run_ok env l completed hcsv hload hok

/-- C2 witness: item 1 times out, item 2 is still attempted, the run exits 0,
and item 1 is recorded in the Error Ledger. -/
theorem C2_item_failure_isolated_witness :
    (run envC2W).exitCode = 0 ∧
    (run envC2W).attempted = [1, 2] ∧
    LedgerEntry.avidE 1 ∈ (run envC2W).st.errors := by
  have h := C2_item_failure_isolated envC2W [1, 2] [] rfl rfl (fun _ => rfl)
  refine ⟨h.1, ?_, ?_⟩
  · rw [h.2.1]; decide
  · exact h.2.2 1 (by rw [h.2.1]; decide) (by decide)

/-- C3: when every request to the proxy-issuing service fails, the retry
loop makes exactly 5 attempts (not 4, not 6), sleeping 5 seconds after each
failed attempt (so the delay between consecutive attempts is 5 seconds),
falls through without a result, and `sys.exit(1)` terminates the process:
`get_ip` exits and the whole run ends with exit code 1. -/
theorem C3_retry_bound (env : Env) (st : RunState) (l : List Int)
    (hall : ∀ k, isFailOutcome (env.ipResponses k) = true)
    (hcsv : env.csv = some l) :
    (getIpLoop env.ipResponses st.k 5).attempts = 5 ∧
    (getIpLoop env.ipResponses st.k 5).res = none ∧
    (getIpLoop env.ipResponses st.k 5).sleeps = [5, 5, 5, 5, 5] ∧
    get_ip env st = .exited { st with k := st.k + 5 } ∧
    (run env).exitCode = 1 := by
  have hloop := getIpLoop_allFail env.ipResponses 5 st.k (fun j _ => hall (st.k + j))
  refine ⟨by rw [hloop], by rw [hloop], by rw [hloop]; rfl,
    get_ip_allFail env st (fun j _ => hall _), ?_⟩
  cases hload : load_progress env.progressFile with
  | error e => simp [run, hcsv, hload]
  | ok completed =>
    have hg := get_ip_allFail env initState (fun j _ => hall _)
    simp [run, hcsv, hload, hg]

/-- C3 witness: the concrete always-failing environment makes exactly 5
attempts, sleeps [5,5,5,5,5], and the run exits 1. -/
theorem C3_retry_bound_witness :
    (getIpLoop envC3W.ipResponses initState.k 5).attempts = 5 ∧
    (getIpLoop envC3W.ipResponses initState.k 5).res = none ∧
    (getIpLoop envC3W.ipResponses initState.k 5).sleeps = [5, 5, 5, 5, 5] ∧
    get_ip envC3W initState = .exited { initState with k := initState.k + 5 } ∧
    (run envC3W).exitCode = 1 :=
  C3_retry_bound envC3W initState [1] (fun _ => rfl) rfl

/-- C4: for a lease issued at `t0`, `check_ip_validity` at `t0 + 301`
invokes `get_ip` (the lease is refreshed), at `t0 + 299` it leaves the
lease unchanged and does not invoke `get_ip`, and with no lease set it
always invokes `get_ip`. -/
theorem C4_lease_expiry (env : Env) (st : RunState) (p : String) (t0 : Int)
    (hp : st.proxy = some p) (ht : st.fetchTime = t0) :
    (env.clock st.clk = t0 + 301 → checkCalled (check_ip_validity env st) = true) ∧
    (env.clock st.clk = t0 + 299 →
      check_ip_validity env st = .ok { st with clk := st.clk + 1 } false) ∧
    (∀ st2 : RunState, st2.proxy = none →
      checkCalled (check_ip_validity env st2) = true) := by
  refine ⟨?_, ?_, ?_⟩
  · intro hc
    have hcond : env.clock st.clk - st.fetchTime > 300 := by rw [hc, ht]; omega
    simp only [check_ip_validity, hp, if_pos hcond]
    exact checkCalled_match _
  · intro hc
    have hcond : ¬(env.clock st.clk - st.fetchTime > 300) := by rw [hc, ht]; omega
    simp only [check_ip_validity, hp, if_neg hcond]
  · intro st2 h2
    simp only [check_ip_validity, h2]
    exact checkCalled_match _

/-- C4 witness: at clock 1301 the lease issued at 1000 is refreshed; at
clock 1299 it is returned unchanged with no acquire; an unset lease is
acquired. -/
theorem C4_lease_expiry_witness :
    checkCalled (check_ip_validity envC4a stC4) = true ∧
    check_ip_validity envC4b stC4 = .ok { stC4 with clk := stC4.clk + 1 } false ∧
    checkCalled (check_ip_validity envC4a stC4n) = true :=
  ⟨(C4_lease_expiry envC4a stC4 "http://203.0.113.5:8080" 1000 rfl rfl).1 rfl,
   (C4_lease_expiry envC4b stC4 "http://203.0.113.5:8080" 1000 rfl rfl).2.1 rfl,
   (C4_lease_expiry envC4a stC4 "http://203.0.113.5:8080" 1000 rfl rfl).2.2 stC4n rfl⟩

/-- C5 counterexample: the claim says a download-succeeded item is appended
to the Progress Ledger regardless of the cover-extraction outcome,
including an extraction timeout, and that on tool failure the file's
basename is recorded.  At `envC5cx` the download of item 7 succeeds and the
cover extraction on `d/v.mp4` times out: `extract_cover_image` catches only
`CalledProcessError` (line 161), so the `TimeoutExpired` propagates to the
per-item handler — item 7 is NOT appended to the progress ledger, the avid
(not the basename) is recorded in the error ledger, and the loop continues
(exit code 0). -/
theorem C5_extraction_timeout_counterexample :
    downloadFails (envC5cx.download 7) = false ∧
    (run envC5cx).st.progress = [] ∧
    LedgerEntry.avidE 7 ∈ (run envC5cx).st.errors ∧
    LedgerEntry.fileE ['v', '.', 'm', 'p', '4'] ∉ (run envC5cx).st.errors ∧
    (run envC5cx).exitCode = 0 := by decide

/-- C5 (amended): on a cover-extraction failure with a non-zero exit
(`CalledProcessError`) the file's basename is recorded to the Error Ledger
and the item is not aborted — when no extraction raises, the item is still
appended to the Progress Ledger; but when an extraction times out or fails
to start, the exception propagates to the per-item handler: the item's ID
(not the basename) is recorded to the Error Ledger and the item is NOT
appended to the Progress Ledger. -/
theorem C5_cover_failure_policy (env : Env) (avid : Int) (st : RunState)
    (p : List Char) (hd : env.dirsRaise avid = false) :
    ((∀ q ∈ mp4Paths (env.walk avid), coverRaises (env.cover q) = false) →
      (processItem env avid st).progress = st.progress ++ [avid] ∧
      (p ∈ mp4Paths (env.walk avid) → env.cover p = .calledErr →
        LedgerEntry.fileE (basenameL p) ∈ (processItem env avid st).errors)) ∧
    ((∃ q ∈ mp4Paths (env.walk avid), coverRaises (env.cover q) = true) →
      (processItem env avid st).progress = st.progress ∧
      LedgerEntry.avidE avid ∈ (processItem env avid st).errors) := by
  constructor
  · intro hnr
    exact ⟨processItem_noRaise_progress env avid st hd hnr,
      fun hp hcall => processItem_calledErr_mem env avid st p hd hp hcall hnr⟩
  · intro hex
    exact processItem_raise_aborts env avid st hd hex

/-- C5 witness: with a non-zero-exit extraction the item completes and the
basename is recorded; with a timing-out extraction the item is aborted and
its ID recorded. -/
theorem C5_cover_failure_policy_witness :
    ((processItem envC5a 7 initState).progress = [7] ∧
      LedgerEntry.fileE ['v', '.', 'm', 'p', '4'] ∈ (processItem envC5a 7 initState).errors) ∧
    ((processItem envC5b 7 initState).progress = [] ∧
      LedgerEntry.avidE 7 ∈ (processItem envC5b 7 initState).errors) := by
  have ha := C5_cover_failure_policy envC5a 7 initState
    ['d', '/', 'v', '.', 'm', 'p', '4'] rfl
  have hb := C5_cover_failure_policy envC5b 7 initState
    ['d', '/', 'v', '.', 'm', 'p', '4'] rfl
  refine ⟨⟨?_, ?_⟩, ?_, ?_⟩
  · exact (ha.1 (by decide)).1
  · exact (ha.1 (by decide)).2 (by decide) (by decide)
  · exact (hb.2 (by decide)).1
  · exact (hb.2 (by decide)).2

/-- C6: the work list is deduplicated preserving first-seen order (no
duplicates, a sublist of the input, same membership, and the first-seen
recursion equation), the remaining work is the deduplicated list minus the
completed set in that order, and input `[5, 3, 5, 3, 7]` with an empty
ledger yields remaining order `[5, 3, 7]`. -/
theorem C6_dedup_order (env : Env) (l completed : List Int)
    (hcsv : env.csv = some l)
    (hload : load_progress env.progressFile = .ok completed)
    (hok : ∀ k, isFailOutcome (env.ipResponses k) = false) :
    (dedupFirst l).Nodup ∧
    List.Sublist (dedupFirst l) l ∧
    (∀ a : Int, a ∈ dedupFirst l ↔ a ∈ l) ∧
    (∀ (a : Int) (t : List Int), dedupFirst (a :: t) =
      a :: dedupFirst (t.filter (fun x => decide (x ≠ a)))) ∧
    (run env).attempted = (dedupFirst l).filter (fun a => decide (a ∉ completed)) ∧
    dedupFirst [5, 3, 5, 3, 7] = [5, 3, 7] ∧
    (dedupFirst [5, 3, 5, 3, 7]).filter
      (fun a => decide (a ∉ ([] : List Int))) = [5, 3, 7] :=
  ⟨dedupFirstAux_nodup l [],
   dedupFirstAux_sublist [] l,
   fun a => by simpa using mem_dedupFirstAux a l [],
   fun a t => dedupFirst_cons a t,
   (run_ok env l completed hcsv hload hok).2.1,
   by decide, by decide⟩

/-- C6 witness: the run on `[5, 3, 5, 3, 7]` with an absent ledger attempts
exactly `[5, 3, 7]` in that order. -/
theorem C6_dedup_order_witness :
    (run envC6W).attempted = [5, 3, 7] ∧ dedupFirst [5, 3, 5, 3, 7] = [5, 3, 7] := by
  have h := C6_dedup_order envC6W [5, 3, 5, 3, 7] [] rfl rfl (fun _ => rfl)
  refine ⟨?_, h.2.2.2.2.2.1⟩
  rw [h.2.2.2.2.1]
  decide

/-- C7 counterexample: the claim says a progress-ledger line that cannot
parse as an integer must not crash the whole batch and processing still
proceeds.  At `envC7cx` (ledger line `abc`, a work item that would
succeed), `int(line.strip())` raises `ValueError` inside the outer `try`
of `run`, which is caught at line 118 and calls `sys.exit(1)`: the whole
run terminates with exit code 1 before any item is attempted. -/
theorem C7_corrupt_line_counterexample :
    (run envC7cx).exitCode = 1 ∧
    (run envC7cx).attempted = [] ∧
    (run envC7cx).st.progress = [] ∧
    downloadFails (envC7cx.download 1) = false := by decide

/-- C7 (amended): a non-integer non-blank line in the progress-ledger file
raises a parse error during `load_progress`; the outer exception handler of
`run` catches it and the whole run exits with code 1 before any work item
is processed (nothing attempted, nothing appended to either ledger). -/
theorem C7_corrupt_line_fatal (env : Env) (l : List Int) (lines : List (List Char))
    (hcsv : env.csv = some l) (hpf : env.progressFile = some lines)
    (hbad : ∃ ln ∈ lines, trimL ln ≠ [] ∧ parsePyInt (trimL ln) = none) :
    (run env).exitCode = 1 ∧ (run env).attempted = [] ∧
    (run env).st.progress = [] ∧ (run env).st.errors = [] := by
  have hload : load_progress env.progressFile = .error () := by
    rw [hpf]
    exact loadLines_bad lines [] hbad
  refine ⟨?_, ?_, ?_, ?_⟩ <;> simp [run, hcsv, hload, initState]

/-- C7 witness: the amended behaviour at the concrete corrupt ledger. -/
theorem C7_corrupt_line_fatal_witness :
    (run envC7cx).exitCode = 1 ∧ (run envC7cx).attempted = [] ∧
    (run envC7cx).st.progress = [] ∧ (run envC7cx).st.errors = [] :=
  C7_corrupt_line_fatal envC7cx [1] [['a', 'b', 'c']] rfl rfl (by decide)

/-- C8: `load_progress` returns the empty set when the progress log does
not exist; otherwise, when every non-blank line parses, it returns exactly
the integers obtained by parsing one integer per non-blank line (blank
lines are ignored), characterized by membership. -/
theorem C8_load_progress_spec (lines : List (List Char))
    (hgood : ∀ ln ∈ lines, trimL ln ≠ [] → (parsePyInt (trimL ln)).isSome = true) :
    load_progress none = .ok [] ∧
    load_progress (some lines) = .ok (parsedIds lines).reverse ∧
    (∀ n : Int, n ∈ (parsedIds lines).reverse ↔
      ∃ ln ∈ lines, trimL ln ≠ [] ∧ parsePyInt (trimL ln) = some n) := by
  refine ⟨rfl, ?_, ?_⟩
  · have h := loadLines_allGood lines [] hgood
    simpa using h
  · intro n
    rw [List.mem_reverse]
    exact mem_parsedIds n lines

/-- C8 witness: the file with lines `42`, a blank line, and `7` loads to
the set containing 7 and 42. -/
theorem C8_load_progress_spec_witness :
    load_progress none = .ok ([] : List Int) ∧
    load_progress (some [['4', '2'], [' '], ['7']]) = .ok [7, 42] ∧
    ((42 : Int) ∈ ([7, 42] : List Int) ↔
      ∃ ln ∈ [['4', '2'], [' '], ['7']], trimL ln ≠ [] ∧
        parsePyInt (trimL ln) = some 42) := by
  have h := C8_load_progress_spec [['4', '2'], [' '], ['7']] (by decide)
  exact ⟨h.1, h.2.1, h.2.2 42⟩

/-- C9: the lease-validity check before each item runs outside the per-item
exception handler: when the lease must be refreshed (unset or expired) and
every request to the proxy service fails, the whole loop terminates with
exit code 1, the item is not attempted, and neither ledger receives an
entry for it. -/
theorem C9_lease_refresh_fatal (env : Env) (a : Int) (rest : List Int)
    (st : RunState) (att : List Int)
    (hfail : ∀ j, j < 5 → isFailOutcome (env.ipResponses (st.k + j)) = true)
    (hexp : st.proxy = none ∨ env.clock st.clk - st.fetchTime > 300) :
    (runLoop env (a :: rest) st att).exitCode = 1 ∧
    (runLoop env (a :: rest) st att).attempted = att ∧
    (runLoop env (a :: rest) st att).st.errors = st.errors ∧
    (runLoop env (a :: rest) st att).st.progress = st.progress := by
  cases hp : st.proxy with
  | none =>
    have hg := get_ip_allFail env st hfail
    have hcv : check_ip_validity env st = .exited { st with k := st.k + 5 } := by
      simp only [check_ip_validity, hp, hg]
    refine ⟨?_, ?_, ?_, ?_⟩ <;> simp [runLoop, hcv]
  | some p =>
    have hcond : env.clock st.clk - st.fetchTime > 300 := by
      rcases hexp with h1 | h1
      · rw [hp] at h1; exact absurd h1 (Option.noConfusion)
      · exact h1
    have hg := get_ip_allFail env { st with clk := st.clk + 1 } (fun j hj => hfail j hj)
    rw [hp] at hg
    have hcv : check_ip_validity env st =
        .exited { st with clk := st.clk + 1, k := st.k + 5 } := by
      simp only [check_ip_validity, hp, if_pos hcond, hg]
      try rfl
    refine ⟨?_, ?_, ?_, ?_⟩ <;> simp [runLoop, hcv]

/-- C9 witness: an expired lease and a dead proxy service abort the loop
before item 4 is attempted, recording nothing. -/
theorem C9_lease_refresh_fatal_witness :
    (runLoop envC9W [4] stC9 []).exitCode = 1 ∧
    (runLoop envC9W [4] stC9 []).attempted = [] ∧
    (runLoop envC9W [4] stC9 []).st.errors = [] ∧
    (runLoop envC9W [4] stC9 []).st.progress = [] :=
  C9_lease_refresh_fatal envC9W 4 [] stC9 [] (fun j _ => rfl) (Or.inr (by decide))

/-- C10 counterexample: the claim says cover extraction is applied to
exactly the `.mp4` files found by the walk.  At `envC10cx` the walk finds
`d/a.mp4` and `d/b.mp4`, the extraction on `d/a.mp4` times out and aborts
the item, so `d/b.mp4` — an `.mp4` file of the walk — never has extraction
applied. -/
theorem C10_walk_abort_counterexample :
    (['d', '/', 'b', '.', 'm', 'p', '4'] ∈ mp4Paths (envC10cx.walk 1)) ∧
    (processItem envC10cx 1 initState).covers =
      [⟨['d', '/', 'a', '.', 'm', 'p', '4'], ['d', '/', 'a', '.', 'j', 'p', 'g']⟩] ∧
    ¬(['d', '/', 'b', '.', 'm', 'p', '4'] ∈
        (processItem envC10cx 1 initState).covers.map (fun call => call.input)) := by
  decide

/-- C10 (amended): cover extraction is applied only to files of the
recursive walk whose names end with `.mp4`, in walk order (the calls are a
prefix of that selection), and to exactly that selection when no extraction
raises; the selection is characterized by membership; and each output path
is the input path with its `.mp4` extension replaced by `.jpg` whenever the
basename has a non-dot character before the extension (the general output
is the `splitext` stem with `.jpg` appended). -/
theorem C10_cover_selection (env : Env) (avid : Int) (st : RunState)
    (root b : List Char) (hd : env.dirsRaise avid = false) :
    (∃ m, m ≤ (mp4Paths (env.walk avid)).length ∧
      (processItem env avid st).covers = st.covers ++
        ((mp4Paths (env.walk avid)).take m).map
          (fun p => (⟨p, splitextStemL p ++ jpgExt⟩ : CoverCall))) ∧
    ((∀ p ∈ mp4Paths (env.walk avid), coverRaises (env.cover p) = false) →
      (processItem env avid st).covers = st.covers ++
        (mp4Paths (env.walk avid)).map
          (fun p => (⟨p, splitextStemL p ++ jpgExt⟩ : CoverCall))) ∧
    (∀ p : List Char, p ∈ mp4Paths (env.walk avid) ↔
      ∃ e ∈ env.walk avid, ∃ f ∈ e.2,
        endsWithL f mp4Ext = true ∧ p = joinPathL e.1 f) ∧
    ('/' ∉ b → (∃ c ∈ b, c ≠ '.') →
      splitextStemL (joinPathL root (b ++ mp4Ext)) ++ jpgExt =
        joinPathL root (b ++ jpgExt)) :=
  ⟨processItem_covers_take env avid st hd,
   processItem_covers_all env avid st hd,
   fun p => mem_mp4Paths (env.walk avid) p,
   fun h1 h2 => cover_output_replaces_ext root b h1 h2⟩

/-- C10 witness: the walk with `d/v.mp4` and `d/n.txt` extracts exactly one
cover, on `d/v.mp4`, writing `d/v.jpg`; and the splitext output equation at
root `d`, stem `v`. -/
theorem C10_cover_selection_witness :
    (processItem envC10W 1 initState).covers =
      [⟨['d', '/', 'v', '.', 'm', 'p', '4'], ['d', '/', 'v', '.', 'j', 'p', 'g']⟩] ∧
    (['d', '/', 'v', '.', 'm', 'p', '4'] ∈ mp4Paths (envC10W.walk 1)) ∧
    splitextStemL (joinPathL ['d'] (['v'] ++ mp4Ext)) ++ jpgExt =
      joinPathL ['d'] (['v'] ++ jpgExt) := by
  have h := C10_cover_selection envC10W 1 initState ['d'] ['v'] rfl
  refine ⟨?_, by decide, h.2.2.2 (by decide) (by decide)⟩
  exact h.2.1 (by decide)

end VD
